import Mathlib

/-!
Verification of the SQL display-formatter core and the demo Django views of
the `debug-toolbar-perf-issue` repository.

The repository's `src/` tree contains only the demo application
(`demo/views.py`, `demo/models.py`, `config/urls.py`); the formatter core
(Tokenizer, Complexity Estimator, Structural Formatter, Fallback Renderer,
Formatting Policy) described by the specification is not present under
`src/`, so those components are modelled from the specification's words and
marked as such in their doc comments.  The demo views are embedded directly
from `src/demo/views.py`.
-/

namespace SqlFmt

/-- The single-quote character, written via its code point. -/
def squoteChar : Char := Char.ofNat 39

/-- SQL whitespace characters recognised by the tokenizer. -/
def isSqlWhite (c : Char) : Bool :=
  c = ' ' || c = '\t' || c = '\n' || c = '\r'

/-- Characters that may continue an identifier / keyword word. -/
def isWordChar (c : Char) : Bool :=
  c.isAlpha || c.isDigit || c = '_'

/-- Characters that may continue a numeric literal. -/
def isNumChar (c : Char) : Bool :=
  c.isDigit || c = '.'

/-- Token kinds, from the spec's data model:
Keyword, Identifier, Literal, Punctuation, Whitespace, Comment,
ParameterPlaceholder. -/
inductive TokenKind where
  | Keyword
  | Identifier
  | Literal
  | Punctuation
  | Whitespace
  | Comment
  | ParameterPlaceholder
deriving DecidableEq, Repr

/-- A lexical token: a kind together with the exact substring it covers. -/
structure Token where
  kind : TokenKind
  text : List Char
deriving DecidableEq, Repr

/-- Modelled from the spec: scanning the body of a quoted string literal
after its opening quote.  Consumes up to and including the closing quote;
a doubled quote is the escape form and stays inside the literal; an
unterminated literal consumes the whole remaining input (lenient
tokenization of malformed SQL). -/
def scanQuoted (q : Char) : List Char → List Char × List Char
  | [] => ([], [])
  | [c] => ([c], [])
  | c :: c2 :: cs =>
    if c = q then
      if c2 = q then
        let p := scanQuoted q cs
        (c :: c2 :: p.1, p.2)
      else ([c], c2 :: cs)
    else
      let p := scanQuoted q (c2 :: cs)
      (c :: p.1, p.2)

/-- Modelled from the spec: scanning the body of a block comment after the
opening marker.  Consumes up to and including the closing marker; an
unterminated comment consumes the whole remaining input. -/
def scanBlock : List Char → List Char × List Char
  | [] => ([], [])
  | [c] => ([c], [])
  | c :: c2 :: cs =>
    if c = '*' && c2 = '/' then ([c, c2], cs)
    else
      let p := scanBlock (c2 :: cs)
      (c :: p.1, p.2)

/-- Modelled from the spec: the reserved words the tokenizer classifies as
keywords (generic tokenization, no dialect-specific correctness). -/
def sqlKeywords : List (List Char) :=
  ["SELECT".toList, "FROM".toList, "WHERE".toList, "IN".toList,
   "AND".toList, "OR".toList, "NOT".toList, "NULL".toList,
   "JOIN".toList, "ON".toList, "AS".toList, "INSERT".toList,
   "INTO".toList, "UPDATE".toList, "DELETE".toList, "SET".toList,
   "VALUES".toList, "GROUP".toList, "BY".toList, "ORDER".toList,
   "HAVING".toList, "LIMIT".toList, "OFFSET".toList]

/-- Case-insensitive keyword lookup. -/
def isKeyword (w : List Char) : Bool :=
  sqlKeywords.contains (w.map Char.toUpper)

/-- Tokenizer step: a run of whitespace. -/
def ntWhite (c : Char) (cs : List Char) : Token × List Char :=
  (⟨.Whitespace, c :: cs.takeWhile isSqlWhite⟩, cs.dropWhile isSqlWhite)

/-- Tokenizer step: a quoted literal opened by `c` (single or double
quote). -/
def ntQuoted (q c : Char) (cs : List Char) : Token × List Char :=
  (⟨.Literal, c :: (scanQuoted q cs).1⟩, (scanQuoted q cs).2)

/-- Tokenizer step: a `--` line comment running to the end of the line. -/
def ntLine (c : Char) (cs : List Char) : Token × List Char :=
  (⟨.Comment, c :: cs.takeWhile (fun d => d ≠ '\n')⟩,
    cs.dropWhile (fun d => d ≠ '\n'))

/-- Tokenizer step: a block comment; `cs.head?` is known to be `'*'`. -/
def ntBlock (c : Char) (cs : List Char) : Token × List Char :=
  (⟨.Comment, c :: '*' :: (scanBlock cs.tail).1⟩, (scanBlock cs.tail).2)

/-- Tokenizer step: a `?` parameter placeholder. -/
def ntQmark (c : Char) (cs : List Char) : Token × List Char :=
  (⟨.ParameterPlaceholder, [c]⟩, cs)

/-- Tokenizer step: a `%s` parameter placeholder; `cs.head?` is known to be
`'s'`. -/
def ntPercentS (c : Char) (cs : List Char) : Token × List Char :=
  (⟨.ParameterPlaceholder, [c, 's']⟩, cs.tail)

/-- Tokenizer step: a `$1`-style numbered placeholder. -/
def ntDollar (c : Char) (cs : List Char) : Token × List Char :=
  (⟨.ParameterPlaceholder, c :: cs.takeWhile Char.isDigit⟩,
    cs.dropWhile Char.isDigit)

/-- Tokenizer step: a `:name`-style named placeholder. -/
def ntNamed (c : Char) (cs : List Char) : Token × List Char :=
  (⟨.ParameterPlaceholder, c :: cs.takeWhile isWordChar⟩,
    cs.dropWhile isWordChar)

/-- The kind of a word token: keyword if the word is reserved, identifier
otherwise. -/
def wordKind (w : List Char) : TokenKind :=
  if isKeyword w then .Keyword else .Identifier

/-- Tokenizer step: a word, classified as keyword or identifier. -/
def ntWord (c : Char) (cs : List Char) : Token × List Char :=
  (⟨wordKind (c :: cs.takeWhile isWordChar),
    c :: cs.takeWhile isWordChar⟩, cs.dropWhile isWordChar)

/-- Tokenizer step: a numeric literal. -/
def ntNumber (c : Char) (cs : List Char) : Token × List Char :=
  (⟨.Literal, c :: cs.takeWhile isNumChar⟩, cs.dropWhile isNumChar)

/-- Tokenizer step: any other single character is punctuation. -/
def ntPunct (c : Char) (cs : List Char) : Token × List Char :=
  (⟨.Punctuation, [c]⟩, cs)

/-- Modelled from the spec: produce the next token from a non-empty input
`c :: cs` together with the unconsumed rest.  Handles quoted string
literals (single/double quote, doubling as escape), block and line
comments, and parameter placeholders of the forms `?`, `%s`, `$1` and
`:name` as atomic tokens; word runs become keywords or identifiers; digit
runs become literals; any other character is punctuation. -/
def nextToken (c : Char) (cs : List Char) : Token × List Char :=
  if isSqlWhite c then ntWhite c cs
  else if c = squoteChar then ntQuoted squoteChar c cs
  else if c = '"' then ntQuoted '"' c cs
  else if c = '-' && cs.head? = some '-' then ntLine c cs
  else if c = '/' && cs.head? = some '*' then ntBlock c cs
  else if c = '?' then ntQmark c cs
  else if c = '%' && cs.head? = some 's' then ntPercentS c cs
  else if c = '$' && (cs.head?.elim false Char.isDigit) then ntDollar c cs
  else if c = ':' && (cs.head?.elim false isWordChar) then ntNamed c cs
  else if c.isAlpha || c = '_' then ntWord c cs
  else if c.isDigit then ntNumber c cs
  else ntPunct c cs

/-- Fuel-indexed tokenization loop: one `nextToken` step per iteration. -/
def tokenizeF : Nat → List Char → List Token
  | 0, _ => []
  | _ + 1, [] => []
  | fuel + 1, c :: cs =>
    let p := nextToken c cs
    p.1 :: tokenizeF fuel p.2

/-- Modelled from the spec: the Tokenizer — a single forward pass over the
raw SQL text producing the finite token sequence.  The input length is
enough fuel because every token is non-empty. -/
def tokenize (l : List Char) : List Token :=
  tokenizeF l.length l

/-- Concatenation of the texts of a token list. -/
def tokensText (ts : List Token) : List Char :=
  (ts.map Token.text).flatten

/-- Whether the body of a quoted region, read after the opening quote,
eventually closes the literal: a doubled quote is an escape and does not
close; any other occurrence of the quote does. -/
def quoteCloses (q : Char) : List Char → Bool
  | [] => false
  | [c] => c = q
  | c :: c2 :: cs =>
    if c = q then
      if c2 = q then quoteCloses q cs else true
    else quoteCloses q (c2 :: cs)

/-- Whether the body of a block comment, read after the opening marker,
contains the closing marker. -/
def blockCloses : List Char → Bool
  | [] => false
  | [_] => false
  | c :: c2 :: cs =>
    if c = '*' && c2 = '/' then true else blockCloses (c2 :: cs)

/-- The suffixes of an input at which the tokenizer's forward pass starts a
token: the whole input, and whatever is left after each step. -/
inductive Reaches : List Char → List Char → Prop where
  | refl (l : List Char) : Reaches l l
  | step {c : Char} {cs l' : List Char} :
      Reaches (nextToken c cs).2 l' → Reaches (c :: cs) l'

/-- A suffix of the input that opens an unterminated region, paired with
the single trailing token expected for it: an unterminated single- or
double-quoted literal (doubled quotes are escapes and do not close it), an
unterminated block comment, or a line comment with no newline to end
it. -/
inductive UnterminatedStart : List Char → Token → Prop where
  | quote (q : Char) (body : List Char)
      (hq : q = squoteChar ∨ q = '"') (hc : quoteCloses q body = false) :
      UnterminatedStart (q :: body) ⟨TokenKind.Literal, q :: body⟩
  | block (body : List Char) (hc : blockCloses body = false) :
      UnterminatedStart ('/' :: '*' :: body)
        ⟨TokenKind.Comment, '/' :: '*' :: body⟩
  | line (body : List Char) (hc : '\n' ∉ body) :
      UnterminatedStart ('-' :: '-' :: body)
        ⟨TokenKind.Comment, '-' :: '-' :: body⟩

/-- Modelled from the spec: a RawStatement — the unformatted SQL text plus
the count of bound-parameter placeholders, immutable once captured. -/
structure RawStatement where
  text : List Char
  paramCount : Nat
deriving DecidableEq, Repr

/-- Modelled from the spec: the formatting-policy configuration surface —
threshold (max literal/placeholder count before degrading),
max_output_length (hard cap on rendered text), enabled (disable formatting
entirely and return raw text), time_budget (optional wall-clock cap). -/
structure Config where
  threshold : Nat
  max_output_length : Nat
  enabled : Bool
  time_budget : Option Nat
deriving DecidableEq, Repr

/-- Modelled from the spec: FormattingDecision — enum of Full and Degraded,
chosen once per statement. -/
inductive FormattingDecision where
  | Full
  | Degraded
deriving DecidableEq, Repr

/-- Modelled from the spec: FormattedResult — the output text plus metadata
(whether the degraded path was taken, elapsed time, whether truncation
occurred). -/
structure FormattedResult where
  text : List Char
  degraded : Bool
  elapsed : Nat
  truncated : Bool
deriving DecidableEq, Repr

/-- Modelled from the spec: internal failures of the Structural Formatter,
surfaced to the Policy as an explicit result type rather than an
exception. -/
inductive FormatError where
  | internal
deriving DecidableEq, Repr

/-- Modelled from the spec: the Complexity Estimator — a cheap cost
estimate derived without full tokenization; here the pre-counted
literal/placeholder count of the raw statement, the unit the threshold is
expressed in. -/
def complexityScore (raw : RawStatement) : Nat :=
  raw.paramCount

/-- Modelled from the spec: the decision rule — scores at or below the
threshold take the Full path, scores above it the Degraded path
(the threshold is inclusive for Full). -/
def decision (raw : RawStatement) (cfg : Config) : FormattingDecision :=
  if complexityScore raw ≤ cfg.threshold then .Full else .Degraded

/-- Clause keywords that the Structural Formatter places at the start of a
new line. -/
def clauseKeywords : List (List Char) :=
  ["SELECT".toList, "FROM".toList, "WHERE".toList, "IN".toList,
   "AND".toList, "OR".toList, "JOIN".toList, "GROUP".toList,
   "ORDER".toList, "HAVING".toList, "VALUES".toList, "SET".toList,
   "LIMIT".toList]

/-- Whether a word is a clause keyword (case-insensitive). -/
def isClauseKeyword (w : List Char) : Bool :=
  clauseKeywords.contains (w.map Char.toUpper)

/-- Modelled from the spec: rendering of one token by the Structural
Formatter — clause keywords start a new line, all other tokens keep their
text. -/
def renderToken (t : Token) : List Char :=
  match t.kind with
  | .Keyword => if isClauseKeyword t.text then '\n' :: t.text else t.text
  | _ => t.text

/-- Modelled from the spec: the Structural Formatter — consumes the token
sequence and emits pretty-printed SQL, reporting failure through an
explicit result type inspected by the Policy. -/
def structuralFormat (ts : List Token) : Except FormatError (List Char) :=
  Except.ok ((ts.map renderToken).flatten)

/-- The truncation marker appended by the Fallback Renderer. -/
def truncMarker : List Char := "...".toList

/-- Modelled from the spec: the Fallback Renderer — a bounded-cost rendering
of the raw statement (not the tokens): the text is cut at the configured
maximum output length with an explicit truncation marker.  Returns the
rendered text and whether truncation occurred. -/
def fallbackRender (raw : RawStatement) (cfg : Config) :
    List Char × Bool :=
  if raw.text.length ≤ cfg.max_output_length then (raw.text, false)
  else (raw.text.take cfg.max_output_length ++ truncMarker, true)

/-- Modelled from the spec: the Formatting Policy, parameterised by the
structural formatter so that the catch-and-fallback behaviour is stated for
any formatter.  `clk` is the elapsed wall-clock time observed for the call,
an input of the model since the core does not own a clock.  Disabled
formatting returns the raw text unchanged; otherwise the decision routes to
the Structural Formatter or the Fallback Renderer, and a formatter failure
is absorbed by falling back. -/
def formatCore (sf : List Token → Except FormatError (List Char))
    (raw : RawStatement) (cfg : Config) (clk : Nat) : FormattedResult :=
  if !cfg.enabled then
    ⟨raw.text, false, 0, false⟩
  else
    match decision raw cfg with
    | .Full =>
      match sf (tokenize raw.text) with
      | .ok out => ⟨out, false, clk, false⟩
      | .error _ =>
        let p := fallbackRender raw cfg
        ⟨p.1, true, clk, p.2⟩
    | .Degraded =>
      let p := fallbackRender raw cfg
      ⟨p.1, true, clk, p.2⟩

/-- Modelled from the spec: `format(raw_statement, config)`, the policy
entry point with the real Structural Formatter plugged in. -/
def format (raw : RawStatement) (cfg : Config) (clk : Nat) :
    FormattedResult :=
  formatCore structuralFormat raw cfg clk

/-- Cost model of the Complexity Estimator: a single cheap lookup of the
pre-counted placeholders. -/
def estimatorCost : Nat := 1

/-- Cost model of the Structural Formatter path: one unit per input
character for tokenization plus one per token for rendering. -/
def structuralCost (raw : RawStatement) : Nat :=
  raw.text.length + (tokenize raw.text).length

/-- Cost model of the Fallback Renderer: it reads at most
`max_output_length` characters of the input, never the whole text. -/
def fallbackCost (raw : RawStatement) (cfg : Config) : Nat :=
  min raw.text.length cfg.max_output_length + 1

/-- Cost model of a `format` call, mirroring the branches of `formatCore`:
a disabled call costs one unit; otherwise the estimator runs, then the
chosen renderer. -/
def formatCost (raw : RawStatement) (cfg : Config) : Nat :=
  if !cfg.enabled then 1
  else
    estimatorCost +
      match decision raw cfg with
      | .Full => structuralCost raw
      | .Degraded => fallbackCost raw cfg

end SqlFmt

namespace DemoViews

/-- An `Item` row, from `src/demo/models.py`: a UUID primary key (UUIDs are
modelled as naturals), a name and a creation timestamp. -/
structure Item where
  id : Nat
  name : String
  created_at : Nat
deriving DecidableEq, Repr

/-- An HTTP GET request: the query-string parameters, in order. -/
structure HttpRequest where
  GET : List (String × String)
deriving DecidableEq, Repr

/-- `request.GET.get(k)`: Django's QueryDict returns the last value given
for the key, or nothing. -/
def queryGet (req : HttpRequest) (k : String) : Option String :=
  ((req.GET.filter (fun p => p.1 == k)).getLast?).map Prod.snd

/-- Whitespace stripped by Python's `int()` conversion. -/
def pyWhite (c : Char) : Bool :=
  c = ' ' || c = '\t' || c = '\n' || c = '\r' || c = '\x0b' || c = '\x0c'

/-- Value of a decimal digit character. -/
def digitVal (c : Char) : Nat := c.toNat - 48

/-- Digit-run accumulator for Python's `int()`: single underscores are
allowed between digits, nowhere else. -/
def digitsUGo (acc : Nat) : List Char → Option Nat
  | [] => some acc
  | ['_'] => none
  | '_' :: d :: rest =>
    if d.isDigit then digitsUGo (acc * 10 + digitVal d) rest else none
  | d :: rest =>
    if d.isDigit then digitsUGo (acc * 10 + digitVal d) rest else none

/-- A non-empty digit run (with optional internal underscores), or
nothing. -/
def digitsU : List Char → Option Nat
  | [] => none
  | d :: rest => if d.isDigit then digitsUGo (digitVal d) rest else none

/-- Python's `int(s)` for decimal strings: optional surrounding whitespace,
optional sign, then a digit run; anything else raises `ValueError`,
modelled as `none`. -/
def pyInt (s : String) : Option Int :=
  let l := ((s.toList.dropWhile pyWhite).reverse.dropWhile pyWhite).reverse
  match l with
  | '+' :: rest => (digitsU rest).map (fun n => (n : Int))
  | '-' :: rest => (digitsU rest).map (fun n => -(n : Int))
  | rest => (digitsU rest).map (fun n => (n : Int))

/-- The Python exceptions the views can raise. -/
inductive PyError where
  | valueError
deriving DecidableEq, Repr

/-- The fixed HTML body returned by the `index` view
(`src/demo/views.py`, lines 11-44). -/
def indexHtml : String :=
  "\n    <!DOCTYPE html>\n    <html>\n    <head><title>Debug Toolbar Performance Issue Demo</title></head>\n    <body>\n        <h1>Debug Toolbar Performance Issue Demo</h1>\n        <p>This project demonstrates a performance issue in django-debug-toolbar\n           when SQL queries contain large IN clauses with many parameters.</p>\n" ++
  "\n        <h2>Test Links</h2>\n        <ul>\n            <li><a href=\"/slow/?count=100\">100 UUIDs in IN clause</a> - Should be fast</li>\n            <li><a href=\"/slow/?count=500\">500 UUIDs in IN clause</a> - Getting slower</li>\n            <li><a href=\"/slow/?count=1000\">1,000 UUIDs in IN clause</a> - Noticeably slow</li>\n            <li><a href=\"/slow/?count=3000\">3,000 UUIDs in IN clause</a> - Very slow</li>\n            <li><a href=\"/slow/?count=5000\">5,000 UUIDs in IN clause</a> - Extremely slow (10+ seconds)</li>\n        </ul>\n" ++
  "\n        <h2>The Problem</h2>\n        <p>The SQL panel in debug-toolbar uses <code>sqlparse</code> to format SQL queries.\n           When a query contains thousands of parameters (like UUIDs in an IN clause),\n           the formatting becomes extremely slow - even though the actual database query is fast.</p>\n" ++
  "\n        <h2>Workaround</h2>\n        <pre>DEBUG_TOOLBAR_CONFIG = \x7b\n    \x27PRETTIFY_SQL\x27: False,  # Disables ALL SQL formatting\n\x7d</pre>\n        <p>This disables formatting for ALL queries, not just the problematic ones.</p>\n" ++
  "\n        <h2>Proposed Fix</h2>\n        <p>Automatic graceful degradation: skip prettification for queries above a certain length threshold.</p>\n    </body>\n    </html>\n    "

/-- The `index` view (`src/demo/views.py`): returns the fixed home page;
the request is not consulted. -/
def index (_req : HttpRequest) : String :=
  indexHtml

/-- The observable outcome of a successful `slow_query` call: the generated
UUID list, the filtered items, and the response body. -/
structure SlowQueryView where
  uuids : List Nat
  items : List Item
  html : String
deriving DecidableEq, Repr

/-- The response body of `slow_query` (`src/demo/views.py`, lines 68-81).
Python's thousands-separator rendering of `count` and the two-decimal
rendering of the measured time are abstracted to plain decimal
rendering. -/
def slowQueryHtml (count : Int) (qtime : Nat) (found : Nat) : String :=
  "\n    <!DOCTYPE html>\n    <html>\n    <head><title>Slow Query Demo</title></head>\n    <body>\n        <h1>Query with " ++ toString count ++
  " UUIDs in IN clause</h1>\n        <p>Query execution time: <strong>" ++ toString qtime ++
  "ms</strong> (database is fast!)</p>\n        <p>Results: " ++ toString found ++
  " items found</p>\n        <p><strong>Watch the debug toolbar</strong> - it will take much longer to render than the query took to execute.</p>\n        <p>The bottleneck is in <code>debug_toolbar/panels/sql/utils.py</code> where sqlparse formats the SQL.</p>\n        <p><a href=\"/\">Back to home</a></p>\n    </body>\n    </html>\n    "

/-- Body of `slow_query` once the count is known: generate `count` fresh
UUIDs (one call of the generator per index, as `uuid.uuid4()` is called
once per loop iteration; `range` of a negative count is empty), run the
`id__in` filter, and render the page.  `qtime` is the measured query time
in milliseconds, an input of the model. -/
def slowQueryBody (gen : Nat → Nat) (db : List Item) (qtime : Nat)
    (count : Int) : SlowQueryView :=
  let uuids := (List.range count.toNat).map gen
  let items := db.filter (fun it => uuids.contains it.id)
  ⟨uuids, items, slowQueryHtml count qtime items.length⟩

/-- The `slow_query` view (`src/demo/views.py`, lines 48-82):
`count = int(request.GET.get('count', 1000))` — a missing parameter
defaults to 1000, a non-integer parameter raises `ValueError`, which
nothing in the view catches. -/
def slow_query (gen : Nat → Nat) (db : List Item) (qtime : Nat)
    (req : HttpRequest) : Except PyError SlowQueryView :=
  match queryGet req "count" with
  | none => Except.ok (slowQueryBody gen db qtime 1000)
  | some s =>
    match pyInt s with
    | none => Except.error PyError.valueError
    | some n => Except.ok (slowQueryBody gen db qtime n)

end DemoViews

namespace SqlFmt

theorem scanQuoted_concat (q : Char) (l : List Char) :
    (scanQuoted q l).1 ++ (scanQuoted q l).2 = l := by
  induction l using scanQuoted.induct q
  all_goals simp_all [scanQuoted]

theorem scanBlock_concat (l : List Char) :
    (scanBlock l).1 ++ (scanBlock l).2 = l := by
  induction l using scanBlock.induct
  case case1 => simp [scanBlock]
  case case2 => simp [scanBlock]
  case case3 => simp_all [scanBlock]
  case case4 c c2 cs h ih =>
    have hn : (c = '*' && c2 = '/') = false := by
      cases hb : (c = '*' && c2 = '/')
      · rfl
      · exact absurd hb h
    simp [scanBlock, hn, ih]

theorem scanQuoted_rest_le (q : Char) (l : List Char) :
    (scanQuoted q l).2.length ≤ l.length := by
  have h := congrArg List.length (scanQuoted_concat q l)
  simp only [List.length_append] at h
  omega

theorem scanBlock_rest_le (l : List Char) :
    (scanBlock l).2.length ≤ l.length := by
  have h := congrArg List.length (scanBlock_concat l)
  simp only [List.length_append] at h
  omega

theorem ntWhite_concat (c : Char) (cs : List Char) :
    (ntWhite c cs).1.text ++ (ntWhite c cs).2 = c :: cs := by
  simp [ntWhite, List.takeWhile_append_dropWhile]

theorem ntQuoted_concat (q c : Char) (cs : List Char) :
    (ntQuoted q c cs).1.text ++ (ntQuoted q c cs).2 = c :: cs := by
  simp [ntQuoted, scanQuoted_concat]

theorem ntLine_concat (c : Char) (cs : List Char) :
    (ntLine c cs).1.text ++ (ntLine c cs).2 = c :: cs := by
  simp [ntLine, List.takeWhile_append_dropWhile]

theorem ntBlock_concat (c : Char) (cs : List Char)
    (h : cs.head? = some '*') :
    (ntBlock c cs).1.text ++ (ntBlock c cs).2 = c :: cs := by
  cases cs with
  | nil => simp at h
  | cons d ds =>
    simp only [List.head?_cons, Option.some.injEq] at h
    subst h
    simp [ntBlock, scanBlock_concat]

theorem ntQmark_concat (c : Char) (cs : List Char) :
    (ntQmark c cs).1.text ++ (ntQmark c cs).2 = c :: cs := by
  simp [ntQmark]

theorem ntPercentS_concat (c : Char) (cs : List Char)
    (h : cs.head? = some 's') :
    (ntPercentS c cs).1.text ++ (ntPercentS c cs).2 = c :: cs := by
  cases cs with
  | nil => simp at h
  | cons d ds =>
    simp only [List.head?_cons, Option.some.injEq] at h
    subst h
    simp [ntPercentS]

theorem ntDollar_concat (c : Char) (cs : List Char) :
    (ntDollar c cs).1.text ++ (ntDollar c cs).2 = c :: cs := by
  simp [ntDollar, List.takeWhile_append_dropWhile]

theorem ntNamed_concat (c : Char) (cs : List Char) :
    (ntNamed c cs).1.text ++ (ntNamed c cs).2 = c :: cs := by
  simp [ntNamed, List.takeWhile_append_dropWhile]

theorem ntWord_concat (c : Char) (cs : List Char) :
    (ntWord c cs).1.text ++ (ntWord c cs).2 = c :: cs := by
  simp [ntWord, List.takeWhile_append_dropWhile]

theorem ntNumber_concat (c : Char) (cs : List Char) :
    (ntNumber c cs).1.text ++ (ntNumber c cs).2 = c :: cs := by
  simp [ntNumber, List.takeWhile_append_dropWhile]

theorem ntPunct_concat (c : Char) (cs : List Char) :
    (ntPunct c cs).1.text ++ (ntPunct c cs).2 = c :: cs := by
  simp [ntPunct]

set_option maxHeartbeats 2000000 in
/-- Round-trip of a single tokenizer step: the token text followed by the
unconsumed rest is exactly the input. -/
theorem nextToken_concat (c : Char) (cs : List Char) :
    (nextToken c cs).1.text ++ (nextToken c cs).2 = c :: cs := by
  unfold nextToken
  split
  · exact ntWhite_concat c cs
  split
  · exact ntQuoted_concat _ c cs
  split
  · exact ntQuoted_concat _ c cs
  split
  · exact ntLine_concat c cs
  split
  · next h =>
    simp only [Bool.and_eq_true, decide_eq_true_eq] at h
    exact ntBlock_concat c cs h.2
  split
  · exact ntQmark_concat c cs
  split
  · next h =>
    simp only [Bool.and_eq_true, decide_eq_true_eq] at h
    exact ntPercentS_concat c cs h.2
  split
  · exact ntDollar_concat c cs
  split
  · exact ntNamed_concat c cs
  split
  · exact ntWord_concat c cs
  split
  · exact ntNumber_concat c cs
  · exact ntPunct_concat c cs

set_option maxHeartbeats 2000000 in
/-- Every produced token is non-empty. -/
theorem nextToken_text_pos (c : Char) (cs : List Char) :
    0 < (nextToken c cs).1.text.length := by
  unfold nextToken
  split
  · simp [ntWhite]
  split
  · simp [ntQuoted]
  split
  · simp [ntQuoted]
  split
  · simp [ntLine]
  split
  · simp [ntBlock]
  split
  · simp [ntQmark]
  split
  · simp [ntPercentS]
  split
  · simp [ntDollar]
  split
  · simp [ntNamed]
  split
  · simp [ntWord]
  split
  · simp [ntNumber]
  · simp [ntPunct]

/-- Each tokenizer step strictly consumes input: the rest is no longer than
the tail of the input. -/
theorem nextToken_rest_le (c : Char) (cs : List Char) :
    (nextToken c cs).2.length ≤ cs.length := by
  have h := congrArg List.length (nextToken_concat c cs)
  simp only [List.length_append, List.length_cons] at h
  have hpos := nextToken_text_pos c cs
  omega

theorem tokensText_tokenizeF (fuel : Nat) :
    ∀ l : List Char, l.length ≤ fuel → tokensText (tokenizeF fuel l) = l := by
  induction fuel with
  | zero =>
    intro l hl
    have : l = [] := List.length_eq_zero.mp (Nat.le_zero.mp hl)
    subst this
    simp [tokenizeF, tokensText]
  | succ n ih =>
    intro l hl
    cases l with
    | nil => simp [tokenizeF, tokensText]
    | cons c cs =>
      have hrest : (nextToken c cs).2.length ≤ n := by
        have := nextToken_rest_le c cs
        simp only [List.length_cons] at hl
        omega
      simp only [tokenizeF, tokensText, List.map_cons, List.flatten_cons]
      have := ih (nextToken c cs).2 hrest
      simp only [tokensText] at this
      rw [this, nextToken_concat]

end SqlFmt



namespace SqlFmt

/-- The tokenizer loop yields nothing on empty input, for any fuel. -/
theorem tokenizeF_nil (fuel : Nat) : tokenizeF fuel [] = [] := by
  cases fuel <;> simp [tokenizeF]

/-- The tokenizer loop is insensitive to the exact fuel, as long as there
is enough of it. -/
theorem tokenizeF_congr : ∀ (f1 f2 : Nat) (l : List Char),
    l.length ≤ f1 → l.length ≤ f2 → tokenizeF f1 l = tokenizeF f2 l := by
  intro f1
  induction f1 with
  | zero =>
    intro f2 l h1 h2
    have : l = [] := List.length_eq_zero.mp (Nat.le_zero.mp h1)
    subst this
    cases f2 <;> simp [tokenizeF]
  | succ n ih =>
    intro f2 l h1 h2
    cases l with
    | nil => cases f2 <;> simp [tokenizeF]
    | cons c cs =>
      cases f2 with
      | zero => simp at h2
      | succ m =>
        simp only [tokenizeF]
        congr 1
        have hr := nextToken_rest_le c cs
        simp only [List.length_cons] at h1 h2
        exact ih m (nextToken c cs).2 (by omega) (by omega)

/-- One unfolding step of the Tokenizer. -/
theorem tokenize_cons (c : Char) (cs : List Char) :
    tokenize (c :: cs) =
      (nextToken c cs).1 :: tokenize (nextToken c cs).2 := by
  unfold tokenize
  simp only [List.length_cons, tokenizeF]
  congr 1
  exact tokenizeF_congr cs.length (nextToken c cs).2.length
    (nextToken c cs).2 (nextToken_rest_le c cs) (le_refl _)

/-- If the forward pass reaches a suffix, the tokens of the whole input end
with the tokens of that suffix. -/
theorem tokenize_reaches_suffix (l rest : List Char) (h : Reaches l rest) :
    ∃ ts, tokenize l = ts ++ tokenize rest := by
  induction h with
  | refl l => exact ⟨[], rfl⟩
  | @step c cs l' hstep ih =>
    obtain ⟨ts, hts⟩ := ih
    exact ⟨(nextToken c cs).1 :: ts, by
      rw [tokenize_cons, hts, List.cons_append]⟩

/-- A quoted-literal scan over a body that never closes the literal
consumes everything: the unterminated-literal behaviour. -/
theorem scanQuoted_of_not_closed (q : Char) (l : List Char)
    (h : quoteCloses q l = false) : scanQuoted q l = (l, []) := by
  induction l using scanQuoted.induct q
  all_goals simp_all [scanQuoted, quoteCloses]

/-- A block-comment scan over a body with no closing marker consumes
everything: the unterminated-comment behaviour. -/
theorem scanBlock_of_not_closed (l : List Char)
    (hn : blockCloses l = false) : scanBlock l = (l, []) := by
  induction l using scanBlock.induct
  case case1 => simp [scanBlock]
  case case2 => simp [scanBlock]
  case case3 => simp_all [scanBlock, blockCloses]
  case case4 c c2 cs h ih =>
    have hb : (c = '*' && c2 = '/') = false := by
      cases hb2 : (c = '*' && c2 = '/')
      · rfl
      · exact absurd hb2 h
    simp_all [scanBlock, blockCloses, hb]

/-- C2: for every SQL text, concatenating the texts of all tokens produced
by the Tokenizer, in order, reproduces the input exactly, whitespace and
comments included. -/
theorem tokenize_roundTrip (l : List Char) :
    tokensText (tokenize l) = l :=
  tokensText_tokenizeF l.length l (le_refl _)

/-- C6: on every malformed input, wherever the tokenizer's forward pass
meets an unterminated quoted string (single or double quote, doubled-quote
escapes respected) or an unterminated comment — regardless of the tokens
before it — the Tokenizer does not fail: the whole unterminated region is
emitted as the single trailing token, and the Structural Formatter still
renders the tokens into a best-effort output. -/
theorem tokenize_unterminated (l rest : List Char) (tok : Token)
    (hr : Reaches l rest) (hu : UnterminatedStart rest tok) :
    (∃ ts, tokenize l = ts ++ [tok]) ∧
    (structuralFormat (tokenize l)).isOk = true := by
  have hrest : tokenize rest = [tok] := by
    cases hu with
    | quote q body hq hc =>
      have hscan : scanQuoted q body = (body, []) :=
        scanQuoted_of_not_closed q body hc
      have hstep : nextToken q body =
          (⟨TokenKind.Literal, q :: body⟩, []) := by
        rcases hq with rfl | rfl
        · rw [show nextToken squoteChar body =
              ntQuoted squoteChar squoteChar body from rfl]
          simp [ntQuoted, hscan]
        · rw [show nextToken '"' body = ntQuoted '"' '"' body from rfl]
          simp [ntQuoted, hscan]
      rw [tokenize_cons, hstep]
      simp [tokenize, tokenizeF]
    | block body hc =>
      have hscan : scanBlock body = (body, []) :=
        scanBlock_of_not_closed body hc
      have hstep : nextToken '/' ('*' :: body) =
          (⟨TokenKind.Comment, '/' :: '*' :: body⟩, []) := by
        rw [show nextToken '/' ('*' :: body) = ntBlock '/' ('*' :: body)
            from rfl]
        simp [ntBlock, hscan]
      rw [tokenize_cons, hstep]
      simp [tokenize, tokenizeF]
    | line body hc =>
      have hstep : nextToken '-' ('-' :: body) =
          (⟨TokenKind.Comment, '-' :: '-' :: body⟩, []) := by
        rw [show nextToken '-' ('-' :: body) = ntLine '-' ('-' :: body)
            from rfl]
        simp [ntLine, List.takeWhile_cons, List.dropWhile_cons]
        intro x hx hEq
        exact hc (hEq ▸ hx)
      rw [tokenize_cons, hstep]
      simp [tokenize, tokenizeF]
  constructor
  · obtain ⟨ts, hts⟩ := tokenize_reaches_suffix l rest hr
    exact ⟨ts, by rw [hts, hrest]⟩
  · rfl

/-- C6 witness: Scenario C's full input, whose unterminated literal is
preceded by fourteen other tokens. -/
theorem tokenize_unterminated_witness :
    (∃ ts, tokenize ("SELECT * FROM t WHERE x = ".toList ++
        squoteChar :: "unterminated".toList) =
      ts ++ [⟨TokenKind.Literal, squoteChar :: "unterminated".toList⟩]) ∧
    (structuralFormat (tokenize ("SELECT * FROM t WHERE x = ".toList ++
        squoteChar :: "unterminated".toList))).isOk = true :=
  tokenize_unterminated _ _ _
    (by repeat
          first
          | exact Reaches.refl _
          | apply Reaches.step)
    (UnterminatedStart.quote squoteChar "unterminated".toList
      (Or.inl rfl) (by decide))

/-- C7: formatting is deterministic — the output text of `format` depends
only on the statement and the configuration, not on the observed clock, so
two calls on the same `(T, config)` yield identical text. -/
theorem format_deterministic (raw : RawStatement) (cfg : Config)
    (clk1 clk2 : Nat) :
    (format raw cfg clk1).text = (format raw cfg clk2).text := by
  unfold format formatCore
  cases h : (!cfg.enabled)
  · cases hd : decision raw cfg
    · cases hsf : structuralFormat (tokenize raw.text) <;>
        simp [h, hd, hsf]
    · simp [h, hd]
  · simp [h]

/-- C5: with `enabled = false`, `format` returns the raw input text
unchanged, not degraded, with zero elapsed time. -/
theorem format_disabled (raw : RawStatement) (cfg : Config) (clk : Nat)
    (h : cfg.enabled = false) :
    (format raw cfg clk).text = raw.text ∧
    (format raw cfg clk).degraded = false ∧
    (format raw cfg clk).elapsed = 0 := by
  simp [format, formatCore, h]

/-- C5 witness: a disabled configuration on a one-character statement. -/
theorem format_disabled_witness :
    ((⟨10, 10, false, none⟩ : Config).enabled = false) ∧
    ((format ⟨['a'], 0⟩ ⟨10, 10, false, none⟩ 7).text = ['a'] ∧
      (format ⟨['a'], 0⟩ ⟨10, 10, false, none⟩ 7).degraded = false ∧
      (format ⟨['a'], 0⟩ ⟨10, 10, false, none⟩ 7).elapsed = 0) :=
  ⟨rfl, format_disabled ⟨['a'], 0⟩ ⟨10, 10, false, none⟩ 7 rfl⟩

/-- C3: any failure of the Structural Formatter is caught at the Policy
boundary: for every formatter `sf` that fails on the statement's tokens,
`formatCore` still returns a FormattedResult, namely the degraded result of
the Fallback Renderer — no error reaches the caller. -/
theorem formatCore_absorbs_failure
    (sf : List Token → Except FormatError (List Char))
    (raw : RawStatement) (cfg : Config) (clk : Nat) (e : FormatError)
    (hen : cfg.enabled = true)
    (hsf : sf (tokenize raw.text) = Except.error e) :
    formatCore sf raw cfg clk =
      ⟨(fallbackRender raw cfg).1, true, clk, (fallbackRender raw cfg).2⟩ := by
  unfold formatCore
  cases hd : decision raw cfg <;> simp [hen, hd, hsf]

/-- C3 witness: a formatter that always fails, absorbed into the fallback
result. -/
theorem formatCore_absorbs_failure_witness :
    formatCore (fun _ => Except.error FormatError.internal)
        ⟨[], 0⟩ ⟨0, 0, true, none⟩ 0 =
      ⟨(fallbackRender ⟨[], 0⟩ ⟨0, 0, true, none⟩).1, true, 0,
        (fallbackRender ⟨[], 0⟩ ⟨0, 0, true, none⟩).2⟩ :=
  formatCore_absorbs_failure _ _ _ _ FormatError.internal rfl rfl

/-- C1: once the literal/placeholder count exceeds the threshold, the cost
of a `format` call and (when formatting is enabled) the size of its output
are bounded by the configuration alone, independently of how large the
statement is. -/
theorem format_bounded_beyond_threshold (raw : RawStatement) (cfg : Config)
    (clk : Nat) (h : cfg.threshold < raw.paramCount) :
    formatCost raw cfg ≤ cfg.max_output_length + 2 ∧
    (cfg.enabled = true →
      (format raw cfg clk).text.length ≤ cfg.max_output_length + 3) := by
  have hs : ¬ (complexityScore raw ≤ cfg.threshold) := by
    unfold complexityScore
    omega
  have hd : decision raw cfg = FormattingDecision.Degraded := by
    simp [decision, hs]
  constructor
  · have hfb : fallbackCost raw cfg ≤ cfg.max_output_length + 1 := by
      unfold fallbackCost
      have hmin : min raw.text.length cfg.max_output_length ≤
          cfg.max_output_length := min_le_right _ _
      omega
    unfold formatCost
    cases he : (!cfg.enabled)
    · simp [he, hd, estimatorCost]
      omega
    · simp [he]
  · intro hen
    unfold format formatCore
    simp only [hen, Bool.not_true, Bool.false_eq_true, if_false, hd]
    unfold fallbackRender
    split
    · next hle =>
      simp only
      omega
    · next hgt =>
      have hmin : cfg.max_output_length ⊓ raw.text.length ≤
          cfg.max_output_length := min_le_left _ _
      have hm : truncMarker.length = 3 := rfl
      simp only [List.length_append, List.length_take]
      omega

/-- C1 witness: two placeholders over a threshold of one. -/
theorem format_bounded_beyond_threshold_witness :
    ((⟨1, 5, true, none⟩ : Config).threshold <
      (⟨['S'], 2⟩ : RawStatement).paramCount) ∧
    (formatCost ⟨['S'], 2⟩ ⟨1, 5, true, none⟩ ≤ 5 + 2 ∧
      ((⟨1, 5, true, none⟩ : Config).enabled = true →
        (format ⟨['S'], 2⟩ ⟨1, 5, true, none⟩ 0).text.length ≤ 5 + 3)) :=
  ⟨by decide,
    format_bounded_beyond_threshold ⟨['S'], 2⟩ ⟨1, 5, true, none⟩ 0
      (by decide)⟩

/-- C4: the threshold is inclusive for the Full path — a statement whose
placeholder count equals the threshold is decided Full (and formats
undegraded), one over it is decided Degraded (and formats degraded). -/
theorem format_threshold_boundary (raw : RawStatement) (cfg : Config)
    (clk : Nat) :
    (raw.paramCount = cfg.threshold →
      decision raw cfg = FormattingDecision.Full) ∧
    (raw.paramCount = cfg.threshold + 1 →
      decision raw cfg = FormattingDecision.Degraded) ∧
    (cfg.enabled = true → raw.paramCount = cfg.threshold →
      (format raw cfg clk).degraded = false) ∧
    (cfg.enabled = true → raw.paramCount = cfg.threshold + 1 →
      (format raw cfg clk).degraded = true) := by
  have hfull : raw.paramCount = cfg.threshold →
      decision raw cfg = FormattingDecision.Full := by
    intro h
    simp [decision, complexityScore, h]
  have hdeg : raw.paramCount = cfg.threshold + 1 →
      decision raw cfg = FormattingDecision.Degraded := by
    intro h
    have : ¬ (complexityScore raw ≤ cfg.threshold) := by
      unfold complexityScore
      omega
    simp [decision, this]
  refine ⟨hfull, hdeg, ?_, ?_⟩
  · intro hen h
    simp [format, formatCore, hen, hfull h, structuralFormat]
  · intro hen h
    simp [format, formatCore, hen, hdeg h]

/-- C4 witness: counts of three and four against a threshold of three. -/
theorem format_threshold_boundary_witness :
    decision ⟨[], 3⟩ ⟨3, 10, true, none⟩ = FormattingDecision.Full ∧
    decision ⟨[], 4⟩ ⟨3, 10, true, none⟩ = FormattingDecision.Degraded ∧
    (format ⟨[], 3⟩ ⟨3, 10, true, none⟩ 0).degraded = false ∧
    (format ⟨[], 4⟩ ⟨3, 10, true, none⟩ 0).degraded = true :=
  ⟨(format_threshold_boundary ⟨[], 3⟩ ⟨3, 10, true, none⟩ 0).1 rfl,
   (format_threshold_boundary ⟨[], 4⟩ ⟨3, 10, true, none⟩ 0).2.1 rfl,
   (format_threshold_boundary ⟨[], 3⟩ ⟨3, 10, true, none⟩ 0).2.2.1 rfl rfl,
   (format_threshold_boundary ⟨[], 4⟩ ⟨3, 10, true, none⟩ 0).2.2.2 rfl rfl⟩

end SqlFmt

namespace DemoViews

/-- C8: with no `count` query parameter, `slow_query` uses the default of
1000: it generates exactly 1000 UUIDs (one generator call per index) and
filters the items by membership of their id in that list. -/
theorem slow_query_default_count (gen : Nat → Nat) (db : List Item)
    (qtime : Nat) (req : HttpRequest)
    (h : queryGet req "count" = none) :
    slow_query gen db qtime req =
      Except.ok (slowQueryBody gen db qtime 1000) ∧
    (slowQueryBody gen db qtime 1000).uuids = (List.range 1000).map gen ∧
    (slowQueryBody gen db qtime 1000).uuids.length = 1000 ∧
    (slowQueryBody gen db qtime 1000).items =
      db.filter (fun it =>
        (slowQueryBody gen db qtime 1000).uuids.contains it.id) := by
  refine ⟨?_, ?_, ?_, ?_⟩
  · simp [slow_query, h]
  · simp [slowQueryBody]
  · simp [slowQueryBody]
  · simp [slowQueryBody]

/-- C8 witness: an empty query string. -/
theorem slow_query_default_count_witness :
    queryGet ⟨[]⟩ "count" = none ∧
    slow_query (fun n => n) [] 0 ⟨[]⟩ =
      Except.ok (slowQueryBody (fun n => n) [] 0 1000) :=
  ⟨rfl, (slow_query_default_count (fun n => n) [] 0 ⟨[]⟩ rfl).1⟩

/-- C10: the `index` view's response is the same fixed HTML body for any
two requests — its output depends on no part of the request. -/
theorem index_noninterference (r1 r2 : HttpRequest) :
    index r1 = index r2 := rfl

end DemoViews
